import Mathlib

set_option maxRecDepth 8000

/-!
Shallow embedding of the DHT11 protocol decoder from
src/main/esp32_dht11_iot.c (functions startSignal, readData, getData,
get_handler) and proofs about it.

The sensor line is modelled as a function from time in microseconds to the
pin level (true = high).  Each busy-wait loop of the C code
(while(!gpio_get_level(PIN)) and while(gpio_get_level(PIN))) is modelled
by a fuel-bounded scan of the trace, one microsecond per poll: the C loops
carry no timeout, so the fuel is purely a modelling device, and a result
of none for every fuel bound means the loop never exits.
-/

namespace Dht11

/-- A pin trace: the line level (true = high) at each microsecond. -/
abbrev Sig := Nat → Bool

/-- Fuel-bounded model of a busy-wait loop polling the pin once per
microsecond until the level equals the target.  Returns the time at which
the target level was first observed, or none if the fuel ran out first.
The C loops (lines 164, 165, 180, 193) are unbounded. -/
def waitForLevel (sig : Sig) (target : Bool) : Nat → Nat → Option Nat
  | _, 0 => none
  | t, fuel + 1 => if sig t = target then some t else waitForLevel sig target (t + 1) fuel

/-- Pin-affecting calls the decoder makes, other than reading the level. -/
inductive PinAct where
  | setDirOutput : PinAct
  | setDirInput : PinAct
  | setLevel : Bool → PinAct
  | delayUs : Nat → PinAct
deriving DecidableEq, Repr

/-- Whether an action mutates the pin direction or drives a level. -/
def isPinWrite : PinAct → Bool
  | .setDirOutput => true
  | .setDirInput => true
  | .setLevel _ => true
  | .delayUs _ => false

/-- The straight-line gpio calls of startSignal (lines 154-161): direction
to output, drive low, hold 19*1000 us, drive high, hold 30 us, direction
to input. -/
def startSignalActs : List PinAct :=
  [ .setDirOutput, .setLevel false, .delayUs (19 * 1000),
    .setLevel true, .delayUs 30, .setDirInput ]

/-- The wait part of startSignal after the pin is switched to input
(lines 164-165): spin while the line is low, then spin while it is high.
Returns the time at which the second loop exits. -/
def startSignalWait (sig : Sig) (fuel t : Nat) : Option Nat :=
  match waitForLevel sig true t fuel with
  | none => none
  | some t1 => waitForLevel sig false t1 fuel

/-- One iteration of the bit loop of readData (lines 178-193): shift the
byte buffer left (uint8_t, so modulo 256), wait for the line to rise,
delay 30 us, sample the level (high means the bit is 1), then wait for
the line to fall.  Returns the updated buffer and the time at which the
falling-edge wait exited. -/
def readBit (sig : Sig) (fuel sbuf t : Nat) : Option (Nat × Nat) :=
  let sbuf1 := (sbuf * 2) % 256
  match waitForLevel sig true t fuel with
  | none => none
  | some t1 =>
    let sbuf2 := if sig (t1 + 30) then sbuf1 ||| 1 else sbuf1 ||| 0
    match waitForLevel sig false (t1 + 30) fuel with
    | none => none
    | some t3 => some (sbuf2, t3)

/-- The for loop of readData, n iterations of readBit threading the byte
buffer and the current time. -/
def readLoop (sig : Sig) (fuel : Nat) : Nat → Nat → Nat → Option (Nat × Nat)
  | 0, sbuf, t => some (sbuf, t)
  | n + 1, sbuf, t =>
    match readBit sig fuel sbuf t with
    | none => none
    | some (sbuf2, t2) => readLoop sig fuel n sbuf2 t2

/-- readData (lines 172-196): eight bit reads starting from an empty
buffer, most significant bit first. -/
def readData (sig : Sig) (fuel t : Nat) : Option (Nat × Nat) :=
  readLoop sig fuel 8 0 t

/-- The output record of getData: struct data (lines 52-54).  The C
fields are int; every value the code stores in them is an unsigned byte
or the constants 0/1, so Nat is a faithful carrier. -/
structure Data where
  temperature : Nat
  humidity : Nat
  status : Nat
deriving DecidableEq, Repr

/-- The assembly part of getData (lines 208-214): status is 0 exactly
when the fifth byte equals the plain integer sum of the first four
(uint8_t operands are promoted to int in C, so the comparison is NOT
taken modulo 256); temperature is the third byte, humidity the first. -/
def getDataAssemble (b0 b1 b2 b3 b4 : Nat) : Data :=
  { status := if b4 = b0 + b1 + b2 + b3 then 0 else 1
    temperature := b2
    humidity := b0 }

/-- getData (lines 198-215): five consecutive readData calls in the
fixed order humidity-integer, humidity-fraction, temperature-integer,
temperature-fraction, checksum, then assembly. -/
def getData (sig : Sig) (fuel t : Nat) : Option (Data × Nat) :=
  match readData sig fuel t with
  | none => none
  | some (b0, t1) =>
  match readData sig fuel t1 with
  | none => none
  | some (b1, t2) =>
  match readData sig fuel t2 with
  | none => none
  | some (b2, t3) =>
  match readData sig fuel t3 with
  | none => none
  | some (b3, t4) =>
  match readData sig fuel t4 with
  | none => none
  | some (b4, t5) => some (getDataAssemble b0 b1 b2 b3 b4, t5)

/-- A server-side log line emitted by get_handler via printf
(lines 231 and 235). -/
inductive LogLine where
  | tempHumi : Nat → Nat → LogLine
  | dhtError : LogLine
deriving DecidableEq, Repr

/-- The numeric fields substituted into the HTML page by the sprintf of
line 239; the surrounding markup is fixed text and outside the core
contract. -/
structure HttpResponse where
  tempShown : Nat
  humiShown : Nat
deriving DecidableEq, Repr

/-- The rendering part of get_handler (lines 229-240): on status 0 log
the reading, otherwise log the DHT11 error line; in both cases the HTML
page is built from the temperature and humidity fields of the record. -/
def getHandlerRender (d : Data) : List LogLine × HttpResponse :=
  ( if d.status = 0 then [.tempHumi d.temperature d.humidity] else [.dhtError],
    { tempShown := d.temperature, humiShown := d.humidity } )

/-- get_handler (lines 222-242): one startSignal handshake, one getData
transaction, then rendering.  The decoder is invoked exactly once per
request. -/
def getHandler (sig : Sig) (fuel t : Nat) : Option (List LogLine × HttpResponse) :=
  match startSignalWait sig fuel t with
  | none => none
  | some t1 =>
    match getData sig fuel t1 with
    | none => none
    | some (d, _) => some (getHandlerRender d)

/-- The pin-affecting action footprint of readData: per bit only the
30 us sampling delay of line 181; readData calls gpio_get_level and
ets_delay_us only, never gpio_set_direction or gpio_set_level. -/
def readDataActs : List PinAct :=
  List.flatten (List.replicate 8 [PinAct.delayUs 30])

/-- The pin-affecting action footprint of getData: five readData calls
(lines 202-206), no gpio writes of its own. -/
def getDataActs : List PinAct :=
  List.flatten (List.replicate 5 readDataActs)

/-- The pin-affecting action footprint of one get_handler transaction:
the startSignal sequence followed by getData. -/
def getHandlerActs : List PinAct :=
  startSignalActs ++ getDataActs

/-- High-pulse width of one transmitted bit: roughly 26-28 us (parameter
p0) encodes 0, 70 us encodes 1 (DHT11 datasheet timing). -/
def pulseWidth (p0 : Nat) (b : Bool) : Nat :=
  if b then 70 else p0

/-- DHT11 transmission trace for a list of bits, starting at time 0:
each bit is a 50 us low gap followed by its high pulse; after the last
bit the line stays low. -/
def encBits (p0 : Nat) : List Bool → Nat → Bool
  | [], _ => false
  | b :: rest, u =>
    if u < 50 then false
    else if u < 50 + pulseWidth p0 b then true
    else encBits p0 rest (u - (50 + pulseWidth p0 b))

/-- The eight bits of a byte, most significant first. -/
def byteBits (b : Nat) : List Bool :=
  (List.range 8).map (fun i => Nat.testBit b (7 - i))

/-- One step of the byte-buffer update of readData: shift left modulo
256, then or in the sampled bit. -/
def bitStep (s : Nat) (b : Bool) : Nat :=
  if b then ((s * 2) % 256) ||| 1 else ((s * 2) % 256) ||| 0

/-- The byte-buffer value after folding a list of bits. -/
def foldBits (s : Nat) (bs : List Bool) : Nat :=
  bs.foldl bitStep s

/-- The 40 bits of a five-byte transmission in wire order. -/
def fiveByteBits (b0 b1 b2 b3 b4 : Nat) : List Bool :=
  byteBits b0 ++ byteBits b1 ++ byteBits b2 ++ byteBits b3 ++ byteBits b4

/-- A full simulated sensor session: acknowledgment (low for 80 us, high
for 80 us) followed by the transmission of the bytes 50, 0, 21, 0, 72
(checksum byte deliberately off by one from 50+0+21+0 = 71). -/
def ackData : Sig := fun u =>
  if u < 160 then decide (80 ≤ u)
  else encBits 27 (fiveByteBits 50 0 21 0 72) (u - 160)

/-- A line that rises 50 us in and then never falls: a sensor stalling
mid-byte during the first high pulse. -/
def stuckHigh : Sig := fun u => decide (50 ≤ u)

/-! Helper lemmas about the busy-wait model. -/

theorem waitForLevel_zero (sig : Sig) (target : Bool) (t : Nat) :
    waitForLevel sig target t 0 = none := rfl

theorem waitForLevel_succ (sig : Sig) (target : Bool) (t fuel : Nat) :
    waitForLevel sig target t (fuel + 1) =
      if sig t = target then some t else waitForLevel sig target (t + 1) fuel := rfl

/-- A wait that is already satisfied exits immediately (given any fuel). -/
theorem waitForLevel_here (sig : Sig) (target : Bool) (t fuel : Nat)
    (h : sig t = target) (hf : 1 ≤ fuel) :
    waitForLevel sig target t fuel = some t := by
  match fuel, hf with
  | fuel + 1, _ => rw [waitForLevel_succ, if_pos h]

/-- If the level differs from the target for d microseconds and then
equals it, the wait exits exactly at that first matching instant. -/
theorem waitForLevel_reaches (sig : Sig) (target : Bool) :
    ∀ (d t fuel : Nat), d < fuel →
      (∀ s, s < d → sig (t + s) ≠ target) → sig (t + d) = target →
      waitForLevel sig target t fuel = some (t + d) := by
  intro d
  induction d with
  | zero =>
    intro t fuel hf _ hd
    match fuel, hf with
    | fuel + 1, _ =>
      rw [waitForLevel_succ, if_pos (by simpa using hd)]
      simp
  | succ d ih =>
    intro t fuel hf hlow hd
    match fuel, hf with
    | fuel + 1, hf =>
      have h0 : sig t ≠ target := by
        have := hlow 0 (Nat.succ_pos d)
        simpa using this
      rw [waitForLevel_succ, if_neg h0]
      have hlow2 : ∀ s, s < d → sig (t + 1 + s) ≠ target := by
        intro s hs
        have h1 : t + 1 + s = t + (s + 1) := by omega
        rw [h1]
        exact hlow (s + 1) (by omega)
      have hd2 : sig (t + 1 + d) = target := by
        have h1 : t + 1 + d = t + (d + 1) := by omega
        rw [h1]; exact hd
      have := ih (t + 1) fuel (by omega) hlow2 hd2
      rw [this]
      congr 1
      omega

/-- If the level never equals the target at or after the start time, the
wait exhausts every fuel bound: the C loop never exits. -/
theorem waitForLevel_none_from (sig : Sig) (target : Bool) :
    ∀ (fuel t : Nat), (∀ u, t ≤ u → sig u ≠ target) →
      waitForLevel sig target t fuel = none := by
  intro fuel
  induction fuel with
  | zero => intro t _; rfl
  | succ fuel ih =>
    intro t h
    rw [waitForLevel_succ, if_neg (h t (Nat.le_refl t))]
    exact ih (t + 1) (fun u hu => h u (by omega))

/-- A successful wait returns a time at or after the start, at which the
level equals the target. -/
theorem waitForLevel_eq_some (sig : Sig) (target : Bool) :
    ∀ (fuel t t1 : Nat), waitForLevel sig target t fuel = some t1 →
      sig t1 = target ∧ t ≤ t1 := by
  intro fuel
  induction fuel with
  | zero => intro t t1 h; simp [waitForLevel_zero] at h
  | succ fuel ih =>
    intro t t1 h
    rw [waitForLevel_succ] at h
    by_cases hs : sig t = target
    · rw [if_pos hs] at h
      obtain rfl : t = t1 := by simpa using h
      exact ⟨hs, Nat.le_refl t⟩
    · rw [if_neg hs] at h
      obtain ⟨h1, h2⟩ := ih (t + 1) t1 h
      exact ⟨h1, by omega⟩

/-! Helper lemmas about the pulse encoding. -/

/-- Inside the leading 50 us low gap (and after the end of the
transmission) the line is low. -/
theorem encBits_low (p0 : Nat) (bs : List Bool) (u : Nat) (h : u < 50) :
    encBits p0 bs u = false := by
  cases bs with
  | nil => rfl
  | cons b rest => simp [encBits, h]

/-- During the high pulse of the first bit the line is high. -/
theorem encBits_cons_high (p0 : Nat) (b : Bool) (rest : List Bool) (u : Nat)
    (h1 : 50 ≤ u) (h2 : u < 50 + pulseWidth p0 b) :
    encBits p0 (b :: rest) u = true := by
  simp [encBits, Nat.not_lt.mpr h1, h2]

/-- Past the first bit the trace is the trace of the remaining bits,
shifted. -/
theorem encBits_cons_past (p0 : Nat) (b : Bool) (rest : List Bool) (u : Nat)
    (h : 50 + pulseWidth p0 b ≤ u) :
    encBits p0 (b :: rest) u = encBits p0 rest (u - (50 + pulseWidth p0 b)) := by
  have h1 : ¬ u < 50 := by omega
  have h2 : ¬ u < 50 + pulseWidth p0 b := by omega
  simp [encBits, h1, h2]

theorem readLoop_zero (sig : Sig) (fuel sbuf t : Nat) :
    readLoop sig fuel 0 sbuf t = some (sbuf, t) := rfl

theorem readLoop_succ (sig : Sig) (fuel n sbuf t : Nat) :
    readLoop sig fuel (n + 1) sbuf t =
      match readBit sig fuel sbuf t with
      | none => none
      | some (sbuf2, t2) => readLoop sig fuel n sbuf2 t2 := rfl

theorem foldBits_cons (s : Nat) (b : Bool) (bs : List Bool) :
    foldBits s (b :: bs) = foldBits (bitStep s b) bs := rfl

/-- Main decoding lemma.  If from time t the trace looks like the pulse
encoding of bs ++ rest, viewed at an offset j of at most 4 us into the
leading 50 us low gap, then the bit loop run for bs.length iterations
decodes exactly the bits bs (folded MSB-first into the byte buffer) and
finishes at most 4 us into the encoding of rest.  The 4 us slack is the
residue of sampling a 0 bit: the sample point at rise + 30 us lies 2-4 us
past the end of a 26-28 us pulse. -/
theorem readLoop_enc (p0 : Nat) (hp1 : 26 ≤ p0) (hp2 : p0 ≤ 28)
    (fuel : Nat) (hf : 51 ≤ fuel) :
    ∀ (bs rest : List Bool) (sig : Sig) (sbuf t j : Nat), j ≤ 4 →
      (∀ u, sig (t + u) = encBits p0 (bs ++ rest) (j + u)) →
      ∃ t2 j2, j2 ≤ 4 ∧
        readLoop sig fuel bs.length sbuf t = some (foldBits sbuf bs, t2) ∧
        ∀ u, sig (t2 + u) = encBits p0 rest (j2 + u) := by
  intro bs
  induction bs with
  | nil =>
    intro rest sig sbuf t j hj hsig
    exact ⟨t, j, hj, rfl, by simpa using hsig⟩
  | cons b bs ih =>
    intro rest sig sbuf t j hj hsig
    simp only [List.cons_append] at hsig
    have hPt : pulseWidth p0 true = 70 := rfl
    have hPf : pulseWidth p0 false = p0 := rfl
    have hP1 : 1 ≤ pulseWidth p0 b := by
      cases b with
      | false => rw [hPf]; omega
      | true => rw [hPt]; omega
    obtain ⟨d, hd⟩ : ∃ d, j + d = 50 := ⟨50 - j, by omega⟩
    have hrise : waitForLevel sig true t fuel = some (t + d) := by
      apply waitForLevel_reaches
      · omega
      · intro s hs
        rw [hsig s, encBits_low p0 _ _ (by omega)]
        simp
      · rw [hsig d]
        exact encBits_cons_high p0 b _ (j + d) (by omega) (by omega)
    have hsamp : sig (t + d + 30) = encBits p0 (b :: (bs ++ rest)) 80 := by
      have h1 : t + d + 30 = t + (d + 30) := by omega
      have h2 : j + (d + 30) = 80 := by omega
      rw [h1, hsig (d + 30), h2]
    cases b with
    | true =>
      have hsampT : sig (t + d + 30) = true := by
        rw [hsamp]
        exact encBits_cons_high p0 true _ 80 (by omega) (by rw [hPt]; omega)
      have hfall : waitForLevel sig false (t + d + 30) fuel =
          some (t + d + 30 + 40) := by
        apply waitForLevel_reaches
        · omega
        · intro s hs
          have h1 : t + d + 30 + s = t + (d + (30 + s)) := by omega
          have h2 : j + (d + (30 + s)) = 80 + s := by omega
          rw [h1, hsig (d + (30 + s)), h2,
            encBits_cons_high p0 true _ (80 + s) (by omega) (by rw [hPt]; omega)]
          simp
        · have h1 : t + d + 30 + 40 = t + (d + 70) := by omega
          have h2 : j + (d + 70) = 120 := by omega
          rw [h1, hsig (d + 70), h2,
            encBits_cons_past p0 true _ 120 (by rw [hPt]),
            encBits_low p0 _ _ (by rw [hPt]; omega)]
      have hbit : readBit sig fuel sbuf t =
          some ((sbuf * 2) % 256 ||| 1, t + d + 30 + 40) := by
        unfold readBit
        rw [hrise]
        simp only [hsampT, if_true, hfall]
      have hsig3 : ∀ u, sig (t + d + 30 + 40 + u) =
          encBits p0 (bs ++ rest) (0 + u) := by
        intro u
        have h1 : t + d + 30 + 40 + u = t + (d + (70 + u)) := by omega
        have h2 : j + (d + (70 + u)) = 120 + u := by omega
        rw [h1, hsig (d + (70 + u)), h2,
          encBits_cons_past p0 true _ (120 + u) (by rw [hPt]; omega)]
        congr 1
        rw [hPt]
        omega
      obtain ⟨t2, j2, hj2, hloop, htrace⟩ :=
        ih rest sig ((sbuf * 2) % 256 ||| 1) (t + d + 30 + 40) 0 (by omega) hsig3
      refine ⟨t2, j2, hj2, ?_, htrace⟩
      rw [List.length_cons, readLoop_succ, hbit]
      simpa [foldBits_cons, bitStep] using hloop
    | false =>
      have hsampF : sig (t + d + 30) = false := by
        rw [hsamp, encBits_cons_past p0 false _ 80 (by rw [hPf]; omega),
          encBits_low p0 _ _ (by rw [hPf]; omega)]
      have hfall : waitForLevel sig false (t + d + 30) fuel =
          some (t + d + 30) :=
        waitForLevel_here sig false (t + d + 30) fuel hsampF (by omega)
      have hbit : readBit sig fuel sbuf t =
          some ((sbuf * 2) % 256 ||| 0, t + d + 30) := by
        unfold readBit
        rw [hrise]
        simp only [hsampF, if_false, hfall, Bool.false_eq_true]
      have hsig3 : ∀ u, sig (t + d + 30 + u) =
          encBits p0 (bs ++ rest) ((30 - p0) + u) := by
        intro u
        have h1 : t + d + 30 + u = t + (d + (30 + u)) := by omega
        have h2 : j + (d + (30 + u)) = 80 + u := by omega
        rw [h1, hsig (d + (30 + u)), h2,
          encBits_cons_past p0 false _ (80 + u) (by rw [hPf]; omega)]
        congr 1
        rw [hPf]
        omega
      obtain ⟨t2, j2, hj2, hloop, htrace⟩ :=
        ih rest sig ((sbuf * 2) % 256 ||| 0) (t + d + 30) (30 - p0)
          (by omega) hsig3
      refine ⟨t2, j2, hj2, ?_, htrace⟩
      rw [List.length_cons, readLoop_succ, hbit]
      simpa [foldBits_cons, bitStep] using hloop

theorem byteBits_length (b : Nat) : (byteBits b).length = 8 := by
  simp [byteBits]

/-- Folding the eight MSB-first bits of a byte through the shift-and-or
step of readData reconstructs the byte. -/
theorem foldBits_byteBits : ∀ b, b < 256 → foldBits 0 (byteBits b) = b := by decide

/-- One full readData call on a trace positioned at most 4 us into the
encoding of one byte followed by the rest of the transmission. -/
theorem readData_enc_at (p0 fuel : Nat) (hp1 : 26 ≤ p0) (hp2 : p0 ≤ 28)
    (hf : 51 ≤ fuel) (b : Nat) (hb : b < 256) (rest : List Bool) (sig : Sig)
    (t j : Nat) (hj : j ≤ 4)
    (hsig : ∀ u, sig (t + u) = encBits p0 (byteBits b ++ rest) (j + u)) :
    ∃ t2 j2, j2 ≤ 4 ∧ readData sig fuel t = some (b, t2) ∧
      ∀ u, sig (t2 + u) = encBits p0 rest (j2 + u) := by
  obtain ⟨t2, j2, hj2, hloop, htrace⟩ :=
    readLoop_enc p0 hp1 hp2 fuel hf (byteBits b) rest sig 0 t j hj hsig
  refine ⟨t2, j2, hj2, ?_, htrace⟩
  unfold readData
  rw [byteBits_length] at hloop
  rw [hloop, foldBits_byteBits b hb]

/-- One full getData transaction on a trace that carries the encoding of
five bytes starting at time t: the five readData calls pick up the bytes
in wire order and the record is assembled from them. -/
theorem getData_enc (sig : Sig) (t : Nat) (b0 b1 b2 b3 b4 p0 fuel : Nat)
    (hb0 : b0 < 256) (hb1 : b1 < 256) (hb2 : b2 < 256) (hb3 : b3 < 256)
    (hb4 : b4 < 256) (hp1 : 26 ≤ p0) (hp2 : p0 ≤ 28) (hf : 51 ≤ fuel)
    (hsig : ∀ u, sig (t + u) = encBits p0 (fiveByteBits b0 b1 b2 b3 b4) u) :
    ∃ t5, getData sig fuel t = some (getDataAssemble b0 b1 b2 b3 b4, t5) := by
  have hsig0 : ∀ u, sig (t + u) =
      encBits p0 (byteBits b0 ++ (byteBits b1 ++ (byteBits b2 ++
        (byteBits b3 ++ byteBits b4)))) (0 + u) := by
    intro u
    rw [hsig u, Nat.zero_add]
    rfl
  obtain ⟨t1, j1, hj1, hr0, htr1⟩ :=
    readData_enc_at p0 fuel hp1 hp2 hf b0 hb0 _ sig t 0 (by omega) hsig0
  obtain ⟨t2, j2, hj2, hr1, htr2⟩ :=
    readData_enc_at p0 fuel hp1 hp2 hf b1 hb1 _ sig t1 j1 hj1 htr1
  obtain ⟨t3, j3, hj3, hr2, htr3⟩ :=
    readData_enc_at p0 fuel hp1 hp2 hf b2 hb2 _ sig t2 j2 hj2 htr2
  obtain ⟨t4, j4, hj4, hr3, htr4⟩ :=
    readData_enc_at p0 fuel hp1 hp2 hf b3 hb3 _ sig t3 j3 hj3 htr3
  have htr4e : ∀ u, sig (t4 + u) = encBits p0 (byteBits b4 ++ []) (j4 + u) := by
    intro u
    rw [List.append_nil]
    exact htr4 u
  obtain ⟨t5, j5, hj5, hr4, htr5⟩ :=
    readData_enc_at p0 fuel hp1 hp2 hf b4 hb4 [] sig t4 j4 hj4 htr4e
  refine ⟨t5, ?_⟩
  simp only [getData, hr0, hr1, hr2, hr3, hr4]

/-! Claim theorems. -/

/-- C1.  The claim states that the valid flag equals whether the fifth
byte matches the mod-256 sum of the four data bytes.  The code compares
against the plain integer sum (C promotes the uint8_t operands to int
before adding, and no mask is applied), which contradicts the claim and
the comment at line 208 whenever the true sum reaches 256.  At the bytes
200, 200, 0, 0 with checksum byte 144 the mod-256 checksum matches, yet
the code sets status to 1 (error). -/
theorem checksum_comparison_not_mod256 :
    (144 : Nat) = (200 + 200 + 0 + 0) % 256 ∧
    (getDataAssemble 200 200 0 0 144).status = 1 := by decide

/-- C2.  For every 8-bit value, a pin trace encoding its bits with 50 us
low gaps, 26-28 us high pulses for 0 bits and 70 us high pulses for
1 bits is decoded by readData to exactly that value, most significant
bit first (the sample 30 us after each rising edge falls between the two
pulse widths). -/
theorem readData_decodes_byte (b p0 fuel : Nat) (hb : b < 256)
    (hp1 : 26 ≤ p0) (hp2 : p0 ≤ 28) (hf : 51 ≤ fuel) :
    Option.map Prod.fst (readData (encBits p0 (byteBits b)) fuel 0) =
      some b := by
  have hsig : ∀ u, encBits p0 (byteBits b) (0 + u) =
      encBits p0 (byteBits b ++ []) (0 + u) := by
    intro u
    rw [List.append_nil]
  obtain ⟨t2, j2, _, hr, _⟩ :=
    readData_enc_at p0 fuel hp1 hp2 hf b hb []
      (encBits p0 (byteBits b)) 0 0 (by omega) hsig
  rw [hr]
  rfl

/-- Witness for C2 at the byte 83 with a 27 us zero pulse. -/
theorem readData_decodes_byte_witness :
    Option.map Prod.fst (readData (encBits 27 (byteBits 83)) 51 0) =
      some 83 :=
  readData_decodes_byte 83 27 51 (by norm_num) (by norm_num) (by norm_num)
    (by norm_num)

/-- C3.  The claim states that startSignal fails with NoResponse within a
bounded timeout when the sensor never acknowledges.  The code has no
timeout at all: lines 164-165 are unbounded while loops.  On a line that
stays low forever (and likewise on a line that stays high forever) the
fuel-bounded model returns none for every fuel bound, i.e. the loop has
not exited after any number of polls: the call blocks indefinitely and
no NoResponse result exists anywhere in the code. -/
theorem startSignal_ack_wait_never_returns (fuel t : Nat) :
    startSignalWait (fun _ => false) fuel t = none ∧
    startSignalWait (fun _ => true) fuel t = none := by
  constructor
  · unfold startSignalWait
    rw [waitForLevel_none_from (fun _ => false) true fuel t
      (fun u _ => by simp)]
  · unfold startSignalWait
    cases fuel with
    | zero => rfl
    | succ n =>
      rw [waitForLevel_here (fun _ => true) true t (n + 1) rfl (by omega)]
      show waitForLevel (fun _ => true) false t (n + 1) = none
      exact waitForLevel_none_from (fun _ => true) false (n + 1) t
        (fun u _ => by simp)

/-- On the mid-byte stalling trace the falling-edge wait of readData can
never exit, so a bit read fails for every fuel bound. -/
theorem readBit_stuckHigh (fuel sbuf t : Nat) :
    readBit stuckHigh fuel sbuf t = none := by
  unfold readBit
  cases hw : waitForLevel stuckHigh true t fuel with
  | none => rfl
  | some t1 =>
    obtain ⟨hlev, _⟩ := waitForLevel_eq_some stuckHigh true fuel t t1 hw
    have h50 : 50 ≤ t1 := by
      by_contra hc
      simp only [stuckHigh, decide_eq_true_eq] at hlev
      omega
    have hfall : waitForLevel stuckHigh false (t1 + 30) fuel = none := by
      apply waitForLevel_none_from
      intro u hu
      simp only [stuckHigh, ne_eq, decide_eq_false_iff_not, Decidable.not_not]
      omega
    simp only [hfall]

/-- C4.  The claim states that a sensor stalling mid-byte makes the
transaction abort with a Timeout error and no Reading.  The code has no
bit-level timeout: lines 180 and 193 are unbounded while loops.  On a
trace whose line rises at 50 us and never falls again, readData and
getData return none for every fuel bound: no Reading is ever produced,
but instead of a Timeout error the code spins forever. -/
theorem getData_stall_never_returns (fuel t : Nat) :
    readData stuckHigh fuel t = none ∧ getData stuckHigh fuel t = none := by
  have hrd : ∀ t0, readData stuckHigh fuel t0 = none := by
    intro t0
    unfold readData
    rw [readLoop_succ, readBit_stuckHigh]
  refine ⟨hrd t, ?_⟩
  unfold getData
  rw [hrd t]

/-- C5.  A transaction reads exactly five bytes in the wire order
humidity-integer, humidity-fraction, temperature-integer,
temperature-fraction, checksum; the record keeps humidity from the first
byte and temperature from the third, discards the fractional bytes from
the retained fields, yet both fractional bytes enter the checksum sum. -/
theorem getData_byte_order_and_fields (b0 b1 b2 b3 b4 p0 fuel : Nat)
    (hb0 : b0 < 256) (hb1 : b1 < 256) (hb2 : b2 < 256) (hb3 : b3 < 256)
    (hb4 : b4 < 256) (hp1 : 26 ≤ p0) (hp2 : p0 ≤ 28) (hf : 51 ≤ fuel) :
    Option.map Prod.fst
      (getData (encBits p0 (fiveByteBits b0 b1 b2 b3 b4)) fuel 0) =
      some { temperature := b2, humidity := b0,
             status := if b4 = b0 + b1 + b2 + b3 then 0 else 1 } := by
  obtain ⟨t5, hg⟩ :=
    getData_enc (encBits p0 (fiveByteBits b0 b1 b2 b3 b4)) 0 b0 b1 b2 b3 b4
      p0 fuel hb0 hb1 hb2 hb3 hb4 hp1 hp2 hf
      (fun u => by rw [Nat.zero_add])
  rw [hg]
  rfl

/-- Witness for C5 at the bytes 50, 0, 21, 0 with valid checksum 71. -/
theorem getData_byte_order_and_fields_witness :
    Option.map Prod.fst
      (getData (encBits 27 (fiveByteBits 50 0 21 0 71)) 51 0) =
      some { temperature := 21, humidity := 50,
             status := if 71 = 50 + 0 + 21 + 0 then 0 else 1 } :=
  getData_byte_order_and_fields 50 0 21 0 71 27 51 (by norm_num)
    (by norm_num) (by norm_num) (by norm_num) (by norm_num) (by norm_num)
    (by norm_num) (by norm_num)

/-- C6.  A checksum mismatch raises no error from the assembly: the call
still produces a structurally complete record whose temperature and
humidity come from the received bytes, and the mismatch shows only in
the status flag. -/
theorem checksum_mismatch_still_full_reading (b0 b1 b2 b3 b4 : Nat)
    (h : b4 ≠ b0 + b1 + b2 + b3) :
    getDataAssemble b0 b1 b2 b3 b4 =
      { temperature := b2, humidity := b0, status := 1 } := by
  simp [getDataAssemble, h]

/-- Witness for C6 at the bytes 50, 0, 21, 0 with bad checksum 72. -/
theorem checksum_mismatch_still_full_reading_witness :
    getDataAssemble 50 0 21 0 72 =
      { temperature := 21, humidity := 50, status := 1 } :=
  checksum_mismatch_still_full_reading 50 0 21 0 72 (by norm_num)

/-- C7.  The handshake drives the pin as output low for 19000 us (at
least the required 18000 us), then high for 30 us (tens of
microseconds), then switches to input and waits through the sensor
acknowledgment: on a trace with an 80 us low response followed by an
80 us high release the wait completes exactly when the line drops at
160 us. -/
theorem startSignal_handshake_sequence :
    (∃ hold rel,
      startSignalActs =
        [PinAct.setDirOutput, PinAct.setLevel false, PinAct.delayUs hold,
         PinAct.setLevel true, PinAct.delayUs rel, PinAct.setDirInput] ∧
      18000 ≤ hold ∧ 10 ≤ rel ∧ rel ≤ 99) ∧
    startSignalWait ackData 200 0 = some 160 := by
  exact ⟨⟨19 * 1000, 30, rfl, by norm_num, by norm_num, by norm_num⟩,
    by decide⟩

/-- C8.  Over a whole transaction the pin-mutating actions are exactly
those of startSignal and the last of them switches the pin to input:
everything after that point (the readData sampling delays of getData)
neither changes the direction nor drives a level, so the pin is left in
the idle input state. -/
theorem pin_idle_input_after_transaction :
    ∃ pre post, getHandlerActs = pre ++ PinAct.setDirInput :: post ∧
      ∀ a ∈ post, isPinWrite a = false := by
  refine ⟨[PinAct.setDirOutput, PinAct.setLevel false,
    PinAct.delayUs (19 * 1000), PinAct.setLevel true, PinAct.delayUs 30],
    getDataActs, by decide, by decide⟩

/-- C9.  On an inbound GET request the handler runs one handshake and
one decoder transaction; whatever record that transaction yields, the
response page always carries its numeric temperature and humidity
fields, while the server-side log gets the reading line on status 0 and
the DHT11 error line otherwise. -/
theorem get_handler_renders (sig : Sig) (fuel t t1 : Nat) (d : Data)
    (t2 : Nat) (hw : startSignalWait sig fuel t = some t1)
    (hg : getData sig fuel t1 = some (d, t2)) :
    getHandler sig fuel t =
      some (if d.status = 0 then [LogLine.tempHumi d.temperature d.humidity]
            else [LogLine.dhtError],
            { tempShown := d.temperature, humiShown := d.humidity }) := by
  simp only [getHandler, hw, hg, getHandlerRender]

/-- Witness for C9 on the full simulated session ackData, whose checksum
byte 72 mismatches the sum 71: the page still shows 21 and 50 while the
log records the error. -/
theorem get_handler_renders_witness :
    getHandler ackData 200 0 =
      some ([LogLine.dhtError], { tempShown := 21, humiShown := 50 }) := by
  have hsig : ∀ u, ackData (160 + u) =
      encBits 27 (fiveByteBits 50 0 21 0 72) u := by
    intro u
    simp only [ackData]
    rw [if_neg (by omega)]
    congr 1
    omega
  obtain ⟨t5, hg⟩ := getData_enc ackData 160 50 0 21 0 72 27 200
    (by norm_num) (by norm_num) (by norm_num) (by norm_num) (by norm_num)
    (by norm_num) (by norm_num) (by norm_num) hsig
  have hw : startSignalWait ackData 200 0 = some 160 := by decide
  rw [get_handler_renders ackData 200 0 160 (getDataAssemble 50 0 21 0 72)
    t5 hw hg]
  decide

/-- C10.  Every run of the assembly writes all three fields of the
record: status is exactly 0 or 1 and never anything else, and the
temperature and humidity fields receive the third and first received
byte whether or not the checksum matched. -/
theorem getData_assigns_all_fields (b0 b1 b2 b3 b4 : Nat) :
    ((getDataAssemble b0 b1 b2 b3 b4).status = 0 ∨
      (getDataAssemble b0 b1 b2 b3 b4).status = 1) ∧
    (getDataAssemble b0 b1 b2 b3 b4).temperature = b2 ∧
    (getDataAssemble b0 b1 b2 b3 b4).humidity = b0 := by
  refine ⟨?_, rfl, rfl⟩
  by_cases h : b4 = b0 + b1 + b2 + b3
  · left
    simp [getDataAssemble, h]
  · right
    simp [getDataAssemble, h]

end Dht11
